import Mathlib

/-!
Verification of the Firewall Builder rule engine.

The development shallowly embeds the validation/export module of the
repository (`validateIP`, `validatePort`, `validateRule`, `exportToIptables`,
`exportToJSON`) and the import path of `App.tsx` (`handleImport`).  Strings
are processed through their character lists; JavaScript's `String.split`,
`String.trim`, `toLowerCase` and the global `parseInt` are modelled on
`List Char` with ASCII semantics (the whitespace class is the ASCII part of
the ECMAScript one; all inputs of interest are ASCII).
-/

/-- ASCII model of the ECMAScript whitespace class used by `parseInt` and
`String.prototype.trim` (space, tab, line feed, carriage return, vertical
tab, form feed). -/
def jsWhitespace (c : Char) : Bool :=
  c = ' ' || c = '\t' || c = '\n' || c = '\r' || c = '\x0b' || c = '\x0c'

/-- JavaScript `s.trim()` on the character list. -/
def trimL (l : List Char) : List Char :=
  ((l.dropWhile jsWhitespace).reverse.dropWhile jsWhitespace).reverse

/-- JavaScript `s.split(sep)` for a one-character separator: `[] ↦ [[]]`,
adjacent separators yield empty fields, a trailing separator yields a
trailing empty field. -/
def splitOnChar (sep : Char) : List Char → List (List Char)
  | [] => [[]]
  | c :: rest =>
    if c = sep then [] :: splitOnChar sep rest
    else
      match splitOnChar sep rest with
      | [] => [[c]]
      | h :: t => (c :: h) :: t

/-- Interleave the separator back between the fields (left inverse of
`splitOnChar`). -/
def joinSep (sep : Char) : List (List Char) → List Char
  | [] => []
  | [x] => x
  | x :: xs => x ++ sep :: joinSep sep xs

/-- The value of a decimal digit (only used on characters in 0-9). -/
def digitVal (c : Char) : Nat := c.toNat - 48

/-- ASCII hexadecimal digit (the digit class of `parseInt` with radix 16). -/
def isHexDigitC (c : Char) : Bool :=
  c.isDigit || (decide ('a' ≤ c) && decide (c ≤ 'f')) || (decide ('A' ≤ c) && decide (c ≤ 'F'))

/-- The value of a hexadecimal digit (only used on hex digits). -/
def hexDigitVal (c : Char) : Nat :=
  if c.isDigit then c.toNat - 48
  else if 'a' ≤ c ∧ c ≤ 'f' then c.toNat - 87
  else c.toNat - 55

/-- Value of a decimal digit run. -/
def digitsVal (l : List Char) : Nat := l.foldl (fun a c => a * 10 + digitVal c) 0

/-- Value of a hexadecimal digit run. -/
def hexVal (l : List Char) : Nat := l.foldl (fun a c => a * 16 + hexDigitVal c) 0

/-- The unsigned part of ECMAScript `parseInt` (radix not given): a `0x`/`0X`
prefix switches to hexadecimal, otherwise the longest leading decimal digit
run is taken; no digits means NaN (`none`). -/
def parseUnsigned (cs : List Char) : Option Nat :=
  if cs.head? = some '0' ∧ (cs.tail.head? = some 'x' ∨ cs.tail.head? = some 'X') then
    (fun ds => if ds = [] then none else some (hexVal ds)) (cs.tail.tail.takeWhile isHexDigitC)
  else
    (fun ds => if ds = [] then none else some (digitsVal ds)) (cs.takeWhile Char.isDigit)

/-- ECMAScript `parseInt(s)` (no radix argument): skip leading whitespace, an
optional sign, then `parseUnsigned`; `none` models NaN. -/
def jsParseIntL (cs : List Char) : Option Int :=
  (fun l =>
    if l.head? = some '-' then (parseUnsigned l.tail).map (fun n => -(n : Int))
    else if l.head? = some '+' then (parseUnsigned l.tail).map (fun n => (n : Int))
    else (parseUnsigned l).map (fun n => (n : Int)))
  (cs.dropWhile jsWhitespace)

/-- Extractor for an exactly-two-element list. -/
def two? : List (List Char) → Option (List Char × List Char)
  | [a, b] => some (a, b)
  | _ => none

/-- Extractor for an exactly-four-element list. -/
def four? : List (List Char) → Option (List Char × List Char × List Char × List Char)
  | [a, b, c, d] => some (a, b, c, d)
  | _ => none

/-- The wildcard test of the source (`ip === '*' || ip === 'ANY' ||
ip.toLowerCase() === 'any'`), on character lists. -/
def wildcardL (l : List Char) : Bool :=
  decide (l = ['*']) || decide (l = ['A', 'N', 'Y']) ||
    decide (l.map Char.toLower = ['a', 'n', 'y'])

/-- One field of the IPv4 regex `(\d{1,3}\.){3}\d{1,3}`: one to three
decimal digits. -/
def octShape (t : List Char) : Bool :=
  decide (1 ≤ t.length) && decide (t.length ≤ 3) && t.all Char.isDigit

/-- `ipv4Regex.test(ip)`: the string is four dot-separated runs of one to
three digits. -/
def ipv4ShapeL (l : List Char) : Bool :=
  match four? (splitOnChar '.' l) with
  | some (a, b, c, d) => octShape a && octShape b && octShape c && octShape d
  | none => false

/-- One octet's value check of the source: `const num = parseInt(part);
num >= 0 && num <= 255`. -/
def octValOk (t : List Char) : Bool :=
  match jsParseIntL t with
  | some n => decide (0 ≤ n) && decide (n ≤ 255)
  | none => false

/-- The CIDR suffix value check of the source: `cidrNum >= 0 && cidrNum <= 32`. -/
def prefixValOk (t : List Char) : Bool :=
  match jsParseIntL t with
  | some n => decide (0 ≤ n) && decide (n ≤ 32)
  | none => false

/-- `validateIP` restricted to its wildcard and plain-IPv4 branches.  The
source's recursive calls `validateIP(ipPart)`, `validateIP(start)`,
`validateIP(end)` are only reached on operands that match the dotted-quad
part of the CIDR/range regex, and on such strings the recursion can only
exercise these two branches, so the source's one-level recursion computes
exactly this function there. -/
def singleIPv4 (l : List Char) : Bool :=
  wildcardL l || (ipv4ShapeL l && (splitOnChar '.' l).all octValOk)

/-- `cidrRegex.test(ip)` for `^(\d{1,3}\.){3}\d{1,3}\/\d{1,2}$`. -/
def cidrShapeL (l : List Char) : Bool :=
  match two? (splitOnChar '/' l) with
  | some (p, c) =>
    ipv4ShapeL p && decide (1 ≤ c.length) && decide (c.length ≤ 2) && c.all Char.isDigit
  | none => false

/-- `rangeRegex.test(ip)` for `^(\d{1,3}\.){3}\d{1,3}-(\d{1,3}\.){3}\d{1,3}$`. -/
def rangeShapeL (l : List Char) : Bool :=
  match two? (splitOnChar '-' l) with
  | some (x, y) => ipv4ShapeL x && ipv4ShapeL y
  | none => false

/-- The body of the source's `validateIP`, on the character list.  Branch
order follows the source: wildcard, plain IPv4 (regex test then per-octet
value check), CIDR (regex test, then recursive validation of the address
part and the prefix bound), range (regex test, then recursive validation of
both operands), otherwise `false`.  The `0 ≤` halves of the value checks are
kept from the source even though `parseInt` of a digit run is never
negative. -/
def validateIPCore (l : List Char) : Bool :=
  if wildcardL l then true
  else if ipv4ShapeL l then (splitOnChar '.' l).all octValOk
  else if cidrShapeL l then
    match two? (splitOnChar '/' l) with
    | some (p, c) => singleIPv4 p && prefixValOk c
    | none => false
  else if rangeShapeL l then
    match two? (splitOnChar '-' l) with
    | some (x, y) => singleIPv4 x && singleIPv4 y
    | none => false
  else false

/-- `validateIP` of the source (`src/unnamed/part_000`, lines 3-31). -/
def validateIP (ip : String) : Bool := validateIPCore ip.data

/-- Extractor for the first two elements of a list (the destructuring
`const [start, end] = ...`, which ignores any further elements). -/
def firstTwo? : List (List Char) → Option (List Char × List Char)
  | a :: b :: _ => some (a, b)
  | _ => none

/-- The range value check of `validatePort`: `!isNaN(start) && !isNaN(end)
&& start >= 1 && start <= 65535 && end >= 1 && end <= 65535 && start <= end`. -/
def rangeVals (s e : Option Int) : Bool :=
  match s, e with
  | some m, some n =>
    decide (1 ≤ m) && decide (m ≤ 65535) && decide (1 ≤ n) && decide (n ≤ 65535) &&
      decide (m ≤ n)
  | _, _ => false

/-- The non-comma path of `validatePort`: the range branch
(`port.split('-')`, trim each field, `parseInt`, bounds and ordering checked
on the first two fields) and the single-port branch. -/
def portNoComma (l : List Char) : Bool :=
  if '-' ∈ l then
    match firstTwo? (splitOnChar '-' l) with
    | some (a, b) => rangeVals (jsParseIntL (trimL a)) (jsParseIntL (trimL b))
    | none => false
  else
    match jsParseIntL l with
    | some n => decide (1 ≤ n) && decide (n ≤ 65535)
    | none => false

/-- The source's recursive call `validatePort(p.trim(), protocol)` on a
token of the comma split: such a token contains no comma, so the comma
branch of the source cannot fire and the recursion computes exactly the
wildcard check, the ICMP exemption and `portNoComma`. -/
def portTok (t : List Char) (protocol : String) : Bool :=
  if wildcardL t then true
  else if protocol == "ICMP" then true
  else portNoComma t

/-- The body of the source's `validatePort`, on the character list.  Branch
order follows the source: wildcard, ICMP exemption, comma-separated list
(every trimmed token validated recursively), then `portNoComma`. -/
def validatePortCore (l : List Char) (protocol : String) : Bool :=
  if wildcardL l then true
  else if protocol == "ICMP" then true
  else if ',' ∈ l then (splitOnChar ',' l).all (fun t => portTok (trimL t) protocol)
  else portNoComma l

/-- `validatePort` of the source (`src/unnamed/part_000`, lines 33-51). -/
def validatePort (port : String) (protocol : String) : Bool :=
  validatePortCore port.data protocol

/-- JavaScript `s.toLowerCase()` restricted to ASCII, as a Lean string map. -/
def jsToLower (s : String) : String := ⟨s.data.map Char.toLower⟩

/-- JavaScript `s.trim()` at the string level. -/
def trimS (s : String) : String := ⟨trimL s.data⟩

/-- The `FirewallRule` entity of `types.ts`.  TypeScript's string-literal
union types for `action` (`'ALLOW' | 'DENY'`) and `protocol`
(`'TCP' | 'UDP' | 'ICMP' | 'ALL'`) are erased at runtime, and the import
path copies whatever strings the document held, so both fields are plain
strings here.  A JavaScript `Date` is its epoch-millisecond value; `none`
models an Invalid Date (`NaN` time value).  The optional `description` is a
string with `""` for `undefined` (both are falsy where the source tests the
field). -/
structure FirewallRule where
  id : String
  name : String
  action : String
  protocol : String
  sourceIp : String
  sourcePort : String
  destinationIp : String
  destinationPort : String
  priority : Int
  enabled : Bool
  description : String
  createdAt : Option Int
  updatedAt : Option Int
deriving DecidableEq, Repr

/-- The `RuleFormData` shape of `types.ts` (all raw field strings). -/
structure RuleFormData where
  name : String
  action : String
  protocol : String
  sourceIp : String
  sourcePort : String
  destinationIp : String
  destinationPort : String
  description : String
deriving DecidableEq, Repr

/-- A `ValidationError` record of `types.ts`. -/
structure ValidationError where
  field : String
  message : String
deriving DecidableEq, Repr

/-- `validateRule` of the source (`src/unnamed/part_000`, lines 53-81): the
five checks run unconditionally in source order, each pushing at most one
error.  JavaScript truthiness of a string is non-emptiness, so
`!rule.name?.trim()` is `trimS name = ""` and the port guards
`rule.sourcePort && ...` are `sourcePort ≠ ""`. -/
def validateRule (form : RuleFormData) : List ValidationError :=
  (if trimS form.name = "" then [⟨"name", "Rule name is required"⟩] else [])
  ++ (if trimS form.sourceIp = "" then [⟨"sourceIp", "Source IP is required"⟩]
      else if validateIP form.sourceIp = false then
        [⟨"sourceIp", "Invalid IP address format"⟩]
      else [])
  ++ (if trimS form.destinationIp = "" then [⟨"destinationIp", "Destination IP is required"⟩]
      else if validateIP form.destinationIp = false then
        [⟨"destinationIp", "Invalid IP address format"⟩]
      else [])
  ++ (if form.sourcePort ≠ "" ∧ validatePort form.sourcePort form.protocol = false then
        [⟨"sourcePort", "Invalid port format"⟩]
      else [])
  ++ (if form.destinationPort ≠ "" ∧ validatePort form.destinationPort form.protocol = false then
        [⟨"destinationPort", "Invalid port format"⟩]
      else [])

/-- Ordering relation used by `exportToIptables`'s comparator
`(a, b) => a.priority - b.priority`. -/
def priLE (a b : FirewallRule) : Prop := a.priority ≤ b.priority

instance : DecidableRel priLE := fun a b => inferInstanceAs (Decidable (a.priority ≤ b.priority))

instance : IsTotal FirewallRule priLE := ⟨fun a b => Int.le_total a.priority b.priority⟩

instance : IsTrans FirewallRule priLE := ⟨fun _ _ _ hab hbc => le_trans hab hbc⟩

/-- `rules.filter(rule => rule.enabled).sort((a, b) => a.priority - b.priority)`.
JavaScript's `Array.prototype.sort` is guaranteed stable, and a stable sort
for the total preorder induced by this comparator is unique, so it is
modelled by insertion sort (whose stability is proved below as the
filter-by-priority characterisation). -/
def enabledSorted (rules : List FirewallRule) : List FirewallRule :=
  List.insertionSort priLE (rules.filter (fun r => r.enabled))

/-- The conditional clause segments of one `iptables` directive line, in the
order the source appends them: base, protocol clause (skipped for `ALL`),
source clause (skipped for the literal `'*'`/`'ANY'`), destination clause
(same), the port clauses (only when the protocol is neither `ICMP` nor
`ALL`, each skipped when empty or a literal `'*'`/`'ANY'`), and the terminal
action clause. -/
def ruleSegments (r : FirewallRule) : List String :=
  ["iptables -A INPUT"]
  ++ (if r.protocol ≠ "ALL" then [" -p " ++ jsToLower r.protocol] else [])
  ++ (if r.sourceIp ≠ "*" ∧ r.sourceIp ≠ "ANY" then [" -s " ++ r.sourceIp] else [])
  ++ (if r.destinationIp ≠ "*" ∧ r.destinationIp ≠ "ANY" then [" -d " ++ r.destinationIp] else [])
  ++ (if r.protocol ≠ "ICMP" ∧ r.protocol ≠ "ALL" then
        (if r.sourcePort ≠ "" ∧ r.sourcePort ≠ "*" ∧ r.sourcePort ≠ "ANY" then
          [" --sport " ++ r.sourcePort] else [])
        ++ (if r.destinationPort ≠ "" ∧ r.destinationPort ≠ "*" ∧ r.destinationPort ≠ "ANY" then
          [" --dport " ++ r.destinationPort] else [])
      else [])
  ++ [if r.action = "ALLOW" then " -j ACCEPT" else " -j DROP"]

/-- The directive line the source builds by successive `command += ...`:
the concatenation of its clause segments. -/
def ruleCommand (r : FirewallRule) : String := String.join (ruleSegments r)

/-- The constant preamble of `exportToIptables` (header comments with the
generation timestamp and enabled-rule count, flush directives, default
policies, loopback allow, established/related allow), emitted before any
per-rule block. -/
def preamble (now : String) (total : Nat) : String :=
  "#!/bin/bash\n# Generated Firewall Rules\n# Generated on: " ++ now
  ++ "\n# Total rules: " ++ toString total ++ "\n\n"
  ++ "# Flush existing rules\niptables -F\niptables -X\niptables -t nat -F\niptables -t nat -X\n\n"
  ++ "# Set default policies\niptables -P INPUT DROP\niptables -P FORWARD DROP\niptables -P OUTPUT ACCEPT\n\n"
  ++ "# Allow loopback traffic\niptables -A INPUT -i lo -j ACCEPT\niptables -A OUTPUT -o lo -j ACCEPT\n\n"
  ++ "# Allow established and related connections\niptables -A INPUT -m state --state ESTABLISHED,RELATED -j ACCEPT\n\n"

/-- The trailing commented-out logging suggestion of `exportToIptables`. -/
def trailer : String :=
  "# Log dropped packets (optional)\n# iptables -A INPUT -j LOG --log-prefix \"DROPPED: \"\n\n"

/-- One per-rule block of `exportToIptables`: the 1-based sequence-number
comment with the rule name, the description comment when a description is
present (truthy), then the directive line and a blank line. -/
def ruleBlock (idx : Nat) (r : FirewallRule) : String :=
  "# Rule " ++ toString (idx + 1) ++ ": " ++ r.name ++ "\n"
  ++ (if r.description ≠ "" then "# Description: " ++ r.description ++ "\n" else "")
  ++ ruleCommand r ++ "\n\n"

/-- `exportToIptables` of the source (`src/unnamed/part_000`, lines 83-147).
The generation timestamp `new Date().toISOString()` is the explicit `now`
parameter — the only non-deterministic input. -/
def exportToIptables (now : String) (rules : List FirewallRule) : String :=
  preamble now (enabledSorted rules).length
  ++ String.join ((enabledSorted rules).enum.map (fun p => ruleBlock p.1 p.2))
  ++ trailer

/-- Decimal digit character of `n` (used with `n < 10`). -/
def digitChar10 (n : Nat) : Char :=
  match n with
  | 0 => '0' | 1 => '1' | 2 => '2' | 3 => '3' | 4 => '4'
  | 5 => '5' | 6 => '6' | 7 => '7' | 8 => '8' | _ => '9'

/-- Decimal numeral of a natural number, most significant digit first. -/
def natToDec (n : Nat) : List Char :=
  if _hlt : n < 10 then [digitChar10 n]
  else natToDec (n / 10) ++ [digitChar10 (n % 10)]
decreasing_by exact Nat.div_lt_self (by omega) (by omega)

/-- Modelled from the spec: `Date.prototype.toISOString` renders a valid
`Date` "in a standard timestamp text form" that reparses to the same
instant.  `Date` internals are a platform builtin, not repository code, so
the ISO-8601 rendering is abstracted to the (equally injective and
reparseable) signed decimal numeral of the epoch-millisecond value.
`toISOString` on an Invalid Date throws in JavaScript; that case is mapped
to `""` (which reparses to an Invalid Date) and is excluded by the
well-formedness hypotheses wherever encoding is discussed. -/
def isoOfDate (d : Option Int) : String :=
  match d with
  | some t => if t < 0 then ⟨'-' :: natToDec t.natAbs⟩ else ⟨natToDec t.toNat⟩
  | none => ""

/-- Modelled from the spec: `new Date(text)` reparses the timestamp text;
text that is unparsable yields an Invalid Date (`none`), mirroring
JavaScript's NaN time value.  Inverse of `isoOfDate` on valid dates. -/
def parseDate (s : String) : Option Int :=
  if s.data = [] then none
  else if s.data.head? = some '-' then
    (if s.data.tail ≠ [] ∧ s.data.tail.all Char.isDigit then
      some (-(digitsVal s.data.tail : Int)) else none)
  else if s.data.all Char.isDigit then some ((digitsVal s.data : Int))
  else none

/-- One rule record of the exchange document: the spread `...rule` of
`exportToJSON` with the two date fields rendered as timestamp text. -/
structure RawRecord where
  id : String
  name : String
  action : String
  protocol : String
  sourceIp : String
  sourcePort : String
  destinationIp : String
  destinationPort : String
  priority : Int
  enabled : Bool
  description : String
  createdAt : String
  updatedAt : String
deriving DecidableEq, Repr

/-- One rule's record in `exportToJSON`: every business field copied, the
dates rendered as text. -/
def encodeRule (r : FirewallRule) : RawRecord where
  id := r.id
  name := r.name
  action := r.action
  protocol := r.protocol
  sourceIp := r.sourceIp
  sourcePort := r.sourcePort
  destinationIp := r.destinationIp
  destinationPort := r.destinationPort
  priority := r.priority
  enabled := r.enabled
  description := r.description
  createdAt := isoOfDate r.createdAt
  updatedAt := isoOfDate r.updatedAt

/-- The exchange document of `exportToJSON` (`src/unnamed/part_000`, lines
149-162): version tag, export timestamp, total count and the encoded rules.
The JSON text layer (`JSON.stringify`/`JSON.parse`) is the identity on this
structured value. -/
structure ExportDoc where
  version : String
  exportDate : String
  totalRules : Nat
  rules : List RawRecord
deriving DecidableEq, Repr

/-- `exportToJSON` of the source, with the export timestamp as the explicit
`exportDate` parameter. -/
def encodeRuleSet (exportDate : String) (rules : List FirewallRule) : ExportDoc where
  version := "1.0"
  exportDate := exportDate
  totalRules := rules.length
  rules := rules.map encodeRule

/-- The parsed import payload after `const importedRules = parsed.rules ||
parsed`: a wrapped document whose `rules` field is an array, a bare
top-level array, or anything else (`notList` — a scalar, an object without
an array `rules` field, ...), which `Array.isArray` rejects. -/
inductive ImportPayload where
  | wrapped (records : List RawRecord)
  | bare (records : List RawRecord)
  | notList
deriving DecidableEq, Repr

/-- The observable outcome of `handleImport`'s decode, exactly as the source
surfaces it: the thrown-and-caught `'Invalid JSON file format...'` alert, the
countless `'No valid rules found in the imported file'` alert (zero accepted
records, nothing appended), or a successful import — the decoded rules
appended by `setRules` together with the accepted count interpolated into
the `Successfully imported ... rule(s)` alert.  The total record count of
the document is computed nowhere and reported nowhere by the source, so it
is no part of the outcome. -/
inductive ImportResult where
  | formatError
  | noValidRules
  | imported (rules : List FirewallRule) (accepted : Nat)
deriving DecidableEq, Repr

/-- The record filter of `handleImport`: `rule.id && rule.name &&
rule.action`; a missing field and an empty string are both falsy. -/
def hasRequired (rec : RawRecord) : Bool :=
  !(rec.id = "") && !(rec.name = "") && !(rec.action = "")

/-- The per-record map of `handleImport`: spread every raw field, overwrite
`id` with a freshly generated one and reparse both date texts. -/
def decodeRecord (newId : String) (rec : RawRecord) : FirewallRule where
  id := newId
  name := rec.name
  action := rec.action
  protocol := rec.protocol
  sourceIp := rec.sourceIp
  sourcePort := rec.sourcePort
  destinationIp := rec.destinationIp
  destinationPort := rec.destinationPort
  priority := rec.priority
  enabled := rec.enabled
  description := rec.description
  createdAt := parseDate rec.createdAt
  updatedAt := parseDate rec.updatedAt

/-- The decode path of `handleImport` (`src/FireWall Builder/src/App.tsx`,
lines 180-219).  `generateId()` is wall-clock-and-randomness based; the
successive fresh identifiers are abstracted to the stream `fresh`. -/
def decodeRuleSet (fresh : Nat → String) (p : ImportPayload) : ImportResult :=
  match p with
  | .notList => .formatError
  | .wrapped recs | .bare recs =>
    (fun valid =>
      if valid.length = 0 then .noValidRules
      else .imported (valid.enum.map (fun q => decodeRecord (fresh q.1) q.2))
        valid.length)
    (recs.filter hasRequired)

/-- The tuple of a rule's business fields: everything `decodeRuleSet` must
reproduce (all fields except the intentionally regenerated `id`). -/
def businessFields (r : FirewallRule) :
    String × String × String × String × String × String × String × Int × Bool × String ×
      Option Int × Option Int :=
  (r.name, r.action, r.protocol, r.sourceIp, r.sourcePort, r.destinationIp,
    r.destinationPort, r.priority, r.enabled, r.description, r.createdAt, r.updatedAt)

/-- Spec grammar, wildcard address/port token: `*` or `ANY` case-insensitively
(ASCII lowering). -/
def WildcardTok (l : List Char) : Prop :=
  l = ['*'] ∨ l.map Char.toLower = ['a', 'n', 'y']

/-- Spec grammar, one decimal octet: a numeral of one to three digits whose
value is in `[0, 255]` (values in that interval need at most three
significant digits; the three-digit bound also covers leading-zero forms
such as `007`). -/
def OctetTok (t : List Char) : Prop :=
  1 ≤ t.length ∧ t.length ≤ 3 ∧ (∀ c ∈ t, c.isDigit = true) ∧ digitsVal t ≤ 255

/-- Spec grammar, single IPv4: exactly four dot-separated decimal octets,
with no leading or trailing characters. -/
def IPv4Tok (l : List Char) : Prop :=
  ∃ a b c d, l = a ++ '.' :: (b ++ '.' :: (c ++ '.' :: d)) ∧
    OctetTok a ∧ OctetTok b ∧ OctetTok c ∧ OctetTok d

/-- Spec grammar, CIDR: `<ipv4>/<prefix>` with a valid single IPv4 part and
a prefix numeral (one or two digits) of value in `[0, 32]`. -/
def CidrTok (l : List Char) : Prop :=
  ∃ p q, l = p ++ '/' :: q ∧ IPv4Tok p ∧
    1 ≤ q.length ∧ q.length ≤ 2 ∧ (∀ c ∈ q, c.isDigit = true) ∧ digitsVal q ≤ 32

/-- Spec grammar, address range: `<ipv4>-<ipv4>`, both operands valid single
IPv4 addresses (no ordering requirement). -/
def RangeTok (l : List Char) : Prop :=
  ∃ x y, l = x ++ '-' :: y ∧ IPv4Tok x ∧ IPv4Tok y

/-- Spec grammar, full address specification: wildcard, single IPv4, CIDR or
range. -/
def AddrSpecOk (s : String) : Prop :=
  WildcardTok s.data ∨ IPv4Tok s.data ∨ CidrTok s.data ∨ RangeTok s.data

/-- Claim grammar (C4 as stated), one port integer: a plain decimal numeral
with value in `[1, 65535]`; a token with any non-digit character is
malformed. -/
def IntTok (t : List Char) : Prop :=
  t ≠ [] ∧ (∀ c ∈ t, c.isDigit = true) ∧ 1 ≤ digitsVal t ∧ digitsVal t ≤ 65535

/-- Claim grammar (C4 as stated), port range: `a-b` with both sides plain
integers in `[1, 65535]` and `a ≤ b`. -/
def StrictRange (l : List Char) : Prop :=
  ∃ a b, l = a ++ '-' :: b ∧ IntTok a ∧ IntTok b ∧ digitsVal a ≤ digitsVal b

/-- Claim grammar (C4 as stated), one comma-list token after trimming. -/
def StrictAtom (t : List Char) : Prop := WildcardTok t ∨ IntTok t ∨ StrictRange t

/-- Claim grammar (C4 as stated): wildcard, ICMP exemption, comma list of
valid trimmed tokens, strict range, or strict single integer; everything
else invalid. -/
def StrictPortSpec (s : String) (protocol : String) : Prop :=
  protocol = "ICMP" ∨ WildcardTok s.data ∨ IntTok s.data ∨ StrictRange s.data ∨
    (',' ∈ s.data ∧ ∀ t ∈ splitOnChar ',' s.data, StrictAtom (trimL t))

/-- Amended port grammar, non-comma token: either a dash form whose first
two dash-separated fields, trimmed, `parseInt` to values in `[1, 65535]`
with the first at most the second (any further dash fields are ignored), or
a dash-free token that `parseInt`s to a value in `[1, 65535]` (trailing
non-numeric characters after the numeric prefix are ignored by `parseInt`). -/
def LenientNC (l : List Char) : Prop :=
  ('-' ∈ l ∧ ∃ a b rest, splitOnChar '-' l = a :: b :: rest ∧
    ∃ m n : Int, jsParseIntL (trimL a) = some m ∧ jsParseIntL (trimL b) = some n ∧
      1 ≤ m ∧ m ≤ 65535 ∧ 1 ≤ n ∧ n ≤ 65535 ∧ m ≤ n) ∨
  ('-' ∉ l ∧ ∃ n : Int, jsParseIntL l = some n ∧ 1 ≤ n ∧ n ≤ 65535)

/-- Amended port grammar, one comma-list token after trimming. -/
def LenientAtom (t : List Char) : Prop := WildcardTok t ∨ LenientNC t

/-- Amended port grammar: wildcard, ICMP exemption, comma list of valid
trimmed tokens, or a lenient non-comma token. -/
def LenientPortSpec (s : String) (protocol : String) : Prop :=
  WildcardTok s.data ∨ protocol = "ICMP" ∨
    (',' ∈ s.data ∧ ∀ t ∈ splitOnChar ',' s.data, LenientAtom (trimL t)) ∨
    (',' ∉ s.data ∧ LenientNC s.data)

instance instDecWildcardTok (l : List Char) : Decidable (WildcardTok l) := by
  unfold WildcardTok; infer_instance

instance instDecOctetTok (t : List Char) : Decidable (OctetTok t) := by
  unfold OctetTok; infer_instance

instance instDecIntTok (t : List Char) : Decidable (IntTok t) := by
  unfold IntTok; infer_instance

/-- Claim reading of the compiler's wildcard test (C2 as stated):
case-insensitive `*`/`ANY`, so the lower-case `any` also counts. -/
def ClaimWildcardS (s : String) : Prop := s = "*" ∨ jsToLower s = "any"

instance instDecClaimWildcardS (s : String) : Decidable (ClaimWildcardS s) := by
  unfold ClaimWildcardS; infer_instance

/-- Fixture: an enabled rule whose source address is the lower-case `any`
(valid for `validateIP`, but not one of the literals the compiler's
source-clause test compares against). -/
def ruleAnySource : FirewallRule where
  id := "r1"
  name := "lower any"
  action := "ALLOW"
  protocol := "TCP"
  sourceIp := "any"
  sourcePort := "*"
  destinationIp := "*"
  destinationPort := "*"
  priority := 1
  enabled := true
  description := ""
  createdAt := some 0
  updatedAt := some 0

/-- Fixture: a disabled rule. -/
def ruleDisabled : FirewallRule where
  id := "r2"
  name := "p2p block"
  action := "DENY"
  protocol := "TCP"
  sourceIp := "*"
  sourcePort := "*"
  destinationIp := "*"
  destinationPort := "6881-6889"
  priority := 5
  enabled := false
  description := "disabled for testing"
  createdAt := some 0
  updatedAt := some 0

/-- Fixture: a well-formed rule for the round-trip witness. -/
def ruleGood : FirewallRule where
  id := "a1"
  name := "Allow SSH"
  action := "ALLOW"
  protocol := "TCP"
  sourceIp := "*"
  sourcePort := "*"
  destinationIp := "*"
  destinationPort := "22"
  priority := 1
  enabled := true
  description := "remote administration"
  createdAt := some 1705315800000
  updatedAt := some 1705315800000

/-- Fixture: a well-formed import record. -/
def recGood : RawRecord where
  id := "1"
  name := "web"
  action := "ALLOW"
  protocol := "TCP"
  sourceIp := "*"
  sourcePort := "*"
  destinationIp := "*"
  destinationPort := "80"
  priority := 2
  enabled := true
  description := ""
  createdAt := "100"
  updatedAt := "100"

/-- Fixture: an import record missing its `action` (a missing field and an
empty string are equally falsy in the source's filter). -/
def recNoAction : RawRecord where
  id := "2"
  name := "broken"
  action := ""
  protocol := "UDP"
  sourceIp := "*"
  sourcePort := "*"
  destinationIp := "*"
  destinationPort := "53"
  priority := 3
  enabled := true
  description := ""
  createdAt := "100"
  updatedAt := "100"

/-- Fixture: an import record with all required fields but unparsable
timestamp text. -/
def recBadDates : RawRecord where
  id := "3"
  name := "stale"
  action := "DENY"
  protocol := "TCP"
  sourceIp := "*"
  sourcePort := "*"
  destinationIp := "*"
  destinationPort := "*"
  priority := 4
  enabled := true
  description := ""
  createdAt := "garbage"
  updatedAt := "also garbage"

theorem splitOnChar_ne_nil (sep : Char) (l : List Char) : splitOnChar sep l ≠ [] := by
  induction l with
  | nil => simp [splitOnChar]
  | cons c rest ih =>
    simp only [splitOnChar]
    by_cases hc : c = sep
    · simp [hc]
    · simp only [hc, if_false]
      cases hsplit : splitOnChar sep rest with
      | nil => simp
      | cons h t => simp

theorem joinSep_cons_cons (sep : Char) (x h : List Char) (t : List (List Char)) :
    joinSep sep (x :: h :: t) = x ++ sep :: joinSep sep (h :: t) := rfl

theorem joinSep_splitOnChar (sep : Char) (l : List Char) :
    joinSep sep (splitOnChar sep l) = l := by
  induction l with
  | nil => rfl
  | cons c rest ih =>
    simp only [splitOnChar]
    by_cases hc : c = sep
    · subst hc
      rw [if_pos rfl]
      cases hsplit : splitOnChar c rest with
      | nil => exact absurd hsplit (splitOnChar_ne_nil c rest)
      | cons h t =>
        rw [hsplit] at ih
        rw [joinSep_cons_cons, List.nil_append, ih]
    · simp only [hc, if_false]
      cases hsplit : splitOnChar sep rest with
      | nil => exact absurd hsplit (splitOnChar_ne_nil sep rest)
      | cons h t =>
        rw [hsplit] at ih
        cases t with
        | nil => simpa [joinSep] using congrArg (c :: ·) ih
        | cons t1 t2 =>
          rw [joinSep_cons_cons] at ih ⊢
          simpa [List.cons_append] using congrArg (c :: ·) ih

theorem not_mem_of_mem_splitOnChar (sep : Char) (l t : List Char)
    (ht : t ∈ splitOnChar sep l) : sep ∉ t := by
  induction l generalizing t with
  | nil =>
    simp only [splitOnChar, List.mem_singleton] at ht
    subst ht; simp
  | cons c rest ih =>
    simp only [splitOnChar] at ht
    by_cases hc : c = sep
    · rw [if_pos hc] at ht
      rcases List.mem_cons.mp ht with h | h
      · subst h; simp
      · exact ih t h
    · rw [if_neg hc] at ht
      cases hsplit : splitOnChar sep rest with
      | nil => exact absurd hsplit (splitOnChar_ne_nil sep rest)
      | cons h tl =>
        rw [hsplit] at ht
        rcases List.mem_cons.mp ht with heq | hmem
        · subst heq
          intro hmem2
          rcases List.mem_cons.mp hmem2 with h1 | h1
          · exact hc h1.symm
          · exact ih h (hsplit ▸ List.mem_cons_self h tl) h1
        · exact ih t (hsplit ▸ List.mem_cons_of_mem h hmem)

theorem splitOnChar_of_not_mem (sep : Char) (l : List Char) (h : sep ∉ l) :
    splitOnChar sep l = [l] := by
  induction l with
  | nil => rfl
  | cons c rest ih =>
    have hc : c ≠ sep := fun hcs => h (hcs ▸ List.mem_cons_self c rest)
    have hrest : sep ∉ rest := fun hm => h (List.mem_cons_of_mem c hm)
    simp only [splitOnChar, hc, if_false, ih hrest]

theorem splitOnChar_append (sep : Char) (x y : List Char) (hx : sep ∉ x) :
    splitOnChar sep (x ++ sep :: y) = x :: splitOnChar sep y := by
  induction x with
  | nil => simp [splitOnChar]
  | cons c rest ih =>
    have hc : c ≠ sep := fun hcs => hx (hcs ▸ List.mem_cons_self c rest)
    have hrest : sep ∉ rest := fun hm => hx (List.mem_cons_of_mem c hm)
    simp only [List.cons_append, splitOnChar, hc, if_false, List.append_eq, ih hrest]

theorem splitOnChar_eq_pair_iff (sep : Char) (l a b : List Char) :
    splitOnChar sep l = [a, b] ↔ sep ∉ a ∧ sep ∉ b ∧ l = a ++ sep :: b := by
  constructor
  · intro h
    refine ⟨not_mem_of_mem_splitOnChar sep l a ?_, not_mem_of_mem_splitOnChar sep l b ?_, ?_⟩
    · rw [h]; simp
    · rw [h]; simp
    · have := joinSep_splitOnChar sep l
      rw [h] at this
      simpa [joinSep] using this.symm
  · rintro ⟨ha, hb, rfl⟩
    rw [splitOnChar_append sep a b ha, splitOnChar_of_not_mem sep b hb]

theorem splitOnChar_eq_quad_iff (sep : Char) (l a b c d : List Char) :
    splitOnChar sep l = [a, b, c, d] ↔
      sep ∉ a ∧ sep ∉ b ∧ sep ∉ c ∧ sep ∉ d ∧
        l = a ++ sep :: (b ++ sep :: (c ++ sep :: d)) := by
  constructor
  · intro h
    refine ⟨not_mem_of_mem_splitOnChar sep l a ?_, not_mem_of_mem_splitOnChar sep l b ?_,
      not_mem_of_mem_splitOnChar sep l c ?_, not_mem_of_mem_splitOnChar sep l d ?_, ?_⟩
    · rw [h]; simp
    · rw [h]; simp
    · rw [h]; simp
    · rw [h]; simp
    · have := joinSep_splitOnChar sep l
      rw [h] at this
      simpa [joinSep] using this.symm
  · rintro ⟨ha, hb, hc, hd, rfl⟩
    rw [splitOnChar_append sep a _ ha, splitOnChar_append sep b _ hb,
      splitOnChar_append sep c _ hc, splitOnChar_of_not_mem sep d hd]

theorem two?_eq_some_iff (xs : List (List Char)) (a b : List Char) :
    two? xs = some (a, b) ↔ xs = [a, b] := by
  constructor
  · intro h
    rcases xs with _ | ⟨x1, _ | ⟨x2, _ | ⟨x3, t⟩⟩⟩ <;> simp_all [two?]
  · rintro rfl; rfl

theorem four?_eq_some_iff (xs : List (List Char)) (a b c d : List Char) :
    four? xs = some (a, b, c, d) ↔ xs = [a, b, c, d] := by
  constructor
  · intro h
    rcases xs with _ | ⟨x1, _ | ⟨x2, _ | ⟨x3, _ | ⟨x4, _ | ⟨x5, t⟩⟩⟩⟩⟩ <;> simp_all [four?]
  · rintro rfl; rfl

theorem takeWhile_eq_self_of_all (p : Char → Bool) (l : List Char)
    (h : ∀ c ∈ l, p c = true) : l.takeWhile p = l := by
  induction l with
  | nil => rfl
  | cons c rest ih =>
    rw [List.takeWhile_cons, if_pos (h c (List.mem_cons_self c rest))]
    exact congrArg (c :: ·) (ih fun d hd => h d (List.mem_cons_of_mem c hd))

theorem not_mem_of_digit_run (l : List Char) (d : Char)
    (h : ∀ c ∈ l, c.isDigit = true) (hd : d.isDigit = false) : d ∉ l := by
  intro hm
  rw [h d hm] at hd
  exact Bool.noConfusion hd

theorem jsParseIntL_digits (l : List Char) (hne : l ≠ [])
    (h : ∀ c ∈ l, c.isDigit = true) : jsParseIntL l = some ((digitsVal l : Int)) := by
  obtain ⟨c, rest, rfl⟩ := List.exists_cons_of_ne_nil hne
  have hc : c.isDigit = true := h c (List.mem_cons_self c rest)
  have hws : jsWhitespace c = false := by
    revert hc
    simp only [Char.isDigit, jsWhitespace]
    intro hcd
    simp only [Bool.and_eq_true, decide_eq_true_iff] at hcd
    simp only [Bool.or_eq_false_iff, decide_eq_false_iff_not]
    refine ⟨⟨⟨⟨⟨fun he => ?_, fun he => ?_⟩, fun he => ?_⟩, fun he => ?_⟩, fun he => ?_⟩, fun he => ?_⟩
      <;> (subst he; revert hcd; decide)
  have hdrop : (c :: rest).dropWhile jsWhitespace = c :: rest := by
    rw [List.dropWhile_cons, if_neg (by simp [hws])]
  have hcm : ∀ d : Char, d.isDigit = false → c ≠ d := fun d hd he => by
    rw [he] at hc; rw [hc] at hd; exact Bool.noConfusion hd
  have hhex : ¬((c :: rest).head? = some '0' ∧
      ((c :: rest).tail.head? = some 'x' ∨ (c :: rest).tail.head? = some 'X')) := by
    rintro ⟨-, hx | hx⟩ <;>
    · simp only [List.tail_cons] at hx
      cases rest with
      | nil => simp at hx
      | cons c2 r2 =>
        simp only [List.head?_cons, Option.some_inj] at hx
        have hc2 : c2.isDigit = true := h c2 (by simp)
        rw [hx] at hc2
        revert hc2; decide
  have htake : (c :: rest).takeWhile Char.isDigit = c :: rest :=
    takeWhile_eq_self_of_all Char.isDigit (c :: rest) h
  simp only [jsParseIntL, hdrop, List.head?_cons, Option.some_inj]
  rw [if_neg (hcm '-' (by decide)), if_neg (hcm '+' (by decide))]
  simp only [parseUnsigned, if_neg hhex, htake]
  rw [if_neg (by simp)]
  rfl

theorem wildcardL_iff (l : List Char) : wildcardL l = true ↔ WildcardTok l := by
  simp only [wildcardL, WildcardTok, Bool.or_eq_true, decide_eq_true_iff]
  constructor
  · rintro ((h | h) | h)
    · exact Or.inl h
    · subst h; exact Or.inr (by decide)
    · exact Or.inr h
  · rintro (h | h)
    · exact Or.inl (Or.inl h)
    · exact Or.inr h

theorem octShape_iff (t : List Char) :
    octShape t = true ↔ 1 ≤ t.length ∧ t.length ≤ 3 ∧ ∀ c ∈ t, c.isDigit = true := by
  simp [octShape, List.all_eq_true, and_assoc]

theorem digitsVal_cast_le (v : Nat) (bound : Nat) :
    ((0 ≤ (v : Int)) ∧ (v : Int) ≤ (bound : Int)) ↔ v ≤ bound := by
  constructor
  · rintro ⟨-, h⟩; exact_mod_cast h
  · intro h; exact ⟨Int.natCast_nonneg v, by exact_mod_cast h⟩

theorem octValOk_digits (t : List Char) (hne : t ≠ [])
    (h : ∀ c ∈ t, c.isDigit = true) : (octValOk t = true ↔ digitsVal t ≤ 255) := by
  rw [octValOk, jsParseIntL_digits t hne h]
  simp only [Bool.and_eq_true, decide_eq_true_iff]
  exact digitsVal_cast_le (digitsVal t) 255

theorem prefixValOk_digits (t : List Char) (hne : t ≠ [])
    (h : ∀ c ∈ t, c.isDigit = true) : (prefixValOk t = true ↔ digitsVal t ≤ 32) := by
  rw [prefixValOk, jsParseIntL_digits t hne h]
  simp only [Bool.and_eq_true, decide_eq_true_iff]
  exact digitsVal_cast_le (digitsVal t) 32

theorem ipv4ShapeL_iff (l : List Char) :
    ipv4ShapeL l = true ↔ ∃ a b c d, splitOnChar '.' l = [a, b, c, d] ∧
      octShape a = true ∧ octShape b = true ∧ octShape c = true ∧ octShape d = true := by
  rw [ipv4ShapeL]
  cases hfour : four? (splitOnChar '.' l) with
  | none =>
    simp only [Bool.false_eq_true, false_iff]
    rintro ⟨a, b, c, d, hsplit, -⟩
    rw [(four?_eq_some_iff (splitOnChar '.' l) a b c d).mpr hsplit] at hfour
    exact Option.noConfusion hfour
  | some q =>
    obtain ⟨a, ⟨b, c, d⟩⟩ := q
    have hsplit := (four?_eq_some_iff (splitOnChar '.' l) a b c d).mp hfour
    simp only [Bool.and_eq_true]
    constructor
    · rintro ⟨⟨⟨ha, hb⟩, hc⟩, hd⟩
      exact ⟨a, b, c, d, hsplit, ha, hb, hc, hd⟩
    · rintro ⟨a2, b2, c2, d2, hsplit2, ha, hb, hc, hd⟩
      rw [hsplit] at hsplit2
      obtain ⟨rfl, rfl, rfl, rfl⟩ : a = a2 ∧ b = b2 ∧ c = c2 ∧ d = d2 := by
        simpa using hsplit2
      exact ⟨⟨⟨ha, hb⟩, hc⟩, hd⟩

theorem IPv4Tok_iff (l : List Char) :
    IPv4Tok l ↔ ipv4ShapeL l = true ∧ (splitOnChar '.' l).all octValOk = true := by
  constructor
  · rintro ⟨a, b, c, d, rfl, ha, hb, hc, hd⟩
    have hdig : ∀ t : List Char, OctetTok t → ∀ ch ∈ t, ch.isDigit = true :=
      fun t ht => ht.2.2.1
    have hnd : ∀ t : List Char, OctetTok t → '.' ∉ t := fun t ht =>
      not_mem_of_digit_run t '.' (hdig t ht) (by decide)
    have hne : ∀ t : List Char, OctetTok t → t ≠ [] := fun t ht => by
      intro he; rw [he] at ht; exact absurd ht.1 (by simp)
    have hsplit : splitOnChar '.' (a ++ '.' :: (b ++ '.' :: (c ++ '.' :: d))) = [a, b, c, d] :=
      (splitOnChar_eq_quad_iff '.' _ a b c d).mpr
        ⟨hnd a ha, hnd b hb, hnd c hc, hnd d hd, rfl⟩
    refine ⟨?_, ?_⟩
    · rw [ipv4ShapeL_iff]
      exact ⟨a, b, c, d, hsplit, (octShape_iff a).mpr ⟨ha.1, ha.2.1, ha.2.2.1⟩,
        (octShape_iff b).mpr ⟨hb.1, hb.2.1, hb.2.2.1⟩,
        (octShape_iff c).mpr ⟨hc.1, hc.2.1, hc.2.2.1⟩,
        (octShape_iff d).mpr ⟨hd.1, hd.2.1, hd.2.2.1⟩⟩
    · rw [hsplit]
      simp only [List.all_eq_true]
      intro t ht
      have hoct : OctetTok t := by
        simp only [List.mem_cons, List.not_mem_nil, or_false] at ht
        rcases ht with rfl | rfl | rfl | rfl <;> assumption
      exact (octValOk_digits t (hne t hoct) (hdig t hoct)).mpr hoct.2.2.2
  · rintro ⟨hshape, hvals⟩
    obtain ⟨a, b, c, d, hsplit, ha, hb, hc, hd⟩ := (ipv4ShapeL_iff l).mp hshape
    obtain ⟨hda, hdb, hdc, hdd, rfl⟩ := (splitOnChar_eq_quad_iff '.' l a b c d).mp hsplit
    rw [hsplit] at hvals
    simp only [List.all_eq_true] at hvals
    rw [octShape_iff] at ha hb hc hd
    have hne : ∀ t : List Char, 1 ≤ t.length → t ≠ [] := by
      intro t h1 he; rw [he] at h1; exact absurd h1 (by simp)
    refine ⟨a, b, c, d, rfl, ⟨ha.1, ha.2.1, ha.2.2, ?_⟩, ⟨hb.1, hb.2.1, hb.2.2, ?_⟩,
      ⟨hc.1, hc.2.1, hc.2.2, ?_⟩, ⟨hd.1, hd.2.1, hd.2.2, ?_⟩⟩
    · exact (octValOk_digits a (hne a ha.1) ha.2.2).mp (hvals a (by simp))
    · exact (octValOk_digits b (hne b hb.1) hb.2.2).mp (hvals b (by simp))
    · exact (octValOk_digits c (hne c hc.1) hc.2.2).mp (hvals c (by simp))
    · exact (octValOk_digits d (hne d hd.1) hd.2.2).mp (hvals d (by simp))

theorem IPv4Tok_chars (l : List Char) (h : IPv4Tok l) :
    ∀ ch ∈ l, ch.isDigit = true ∨ ch = '.' := by
  obtain ⟨a, b, c, d, rfl, ha, hb, hc, hd⟩ := h
  intro ch hch
  simp only [List.mem_append, List.mem_cons] at hch
  rcases hch with h1 | h1 | h1 | h1 | h1 | h1 | h1
  · exact Or.inl (ha.2.2.1 ch h1)
  · exact Or.inr h1
  · exact Or.inl (hb.2.2.1 ch h1)
  · exact Or.inr h1
  · exact Or.inl (hc.2.2.1 ch h1)
  · exact Or.inr h1
  · exact Or.inl (hd.2.2.1 ch h1)

theorem IPv4Tok_length (l : List Char) (h : IPv4Tok l) : 7 ≤ l.length := by
  obtain ⟨a, b, c, d, rfl, ha, hb, hc, hd⟩ := h
  have := ha.1; have := hb.1; have := hc.1; have := hd.1
  simp only [List.length_append, List.length_cons]
  omega

theorem ipv4ShapeL_chars (l : List Char) (h : ipv4ShapeL l = true) :
    ∀ ch ∈ l, ch.isDigit = true ∨ ch = '.' := by
  obtain ⟨a, b, c, d, hsplit, ha, hb, hc, hd⟩ := (ipv4ShapeL_iff l).mp h
  obtain ⟨-, -, -, -, rfl⟩ := (splitOnChar_eq_quad_iff '.' l a b c d).mp hsplit
  rw [octShape_iff] at ha hb hc hd
  intro ch hch
  simp only [List.mem_append, List.mem_cons] at hch
  rcases hch with h1 | h1 | h1 | h1 | h1 | h1 | h1
  · exact Or.inl (ha.2.2 ch h1)
  · exact Or.inr h1
  · exact Or.inl (hb.2.2 ch h1)
  · exact Or.inr h1
  · exact Or.inl (hc.2.2 ch h1)
  · exact Or.inr h1
  · exact Or.inl (hd.2.2 ch h1)

theorem ipv4ShapeL_length (l : List Char) (h : ipv4ShapeL l = true) : 7 ≤ l.length := by
  obtain ⟨a, b, c, d, hsplit, ha, hb, hc, hd⟩ := (ipv4ShapeL_iff l).mp h
  obtain ⟨-, -, -, -, rfl⟩ := (splitOnChar_eq_quad_iff '.' l a b c d).mp hsplit
  rw [octShape_iff] at ha hb hc hd
  have := ha.1; have := hb.1; have := hc.1; have := hd.1
  simp only [List.length_append, List.length_cons]
  omega

theorem singleIPv4_iff (l : List Char) :
    singleIPv4 l = true ↔ WildcardTok l ∨ IPv4Tok l := by
  rw [singleIPv4]
  simp only [Bool.or_eq_true, Bool.and_eq_true]
  rw [wildcardL_iff, ← IPv4Tok_iff]

theorem cidrShapeL_iff (l : List Char) :
    cidrShapeL l = true ↔ ∃ p q, splitOnChar '/' l = [p, q] ∧ ipv4ShapeL p = true ∧
      1 ≤ q.length ∧ q.length ≤ 2 ∧ ∀ c ∈ q, c.isDigit = true := by
  rw [cidrShapeL]
  cases htwo : two? (splitOnChar '/' l) with
  | none =>
    simp only [Bool.false_eq_true, false_iff]
    rintro ⟨p, q, hsplit, -⟩
    rw [(two?_eq_some_iff (splitOnChar '/' l) p q).mpr hsplit] at htwo
    exact Option.noConfusion htwo
  | some pq =>
    obtain ⟨p, q⟩ := pq
    have hsplit := (two?_eq_some_iff (splitOnChar '/' l) p q).mp htwo
    simp only [Bool.and_eq_true, decide_eq_true_iff, List.all_eq_true]
    constructor
    · rintro ⟨⟨⟨hp, h1⟩, h2⟩, hq⟩
      exact ⟨p, q, hsplit, hp, h1, h2, hq⟩
    · rintro ⟨p2, q2, hsplit2, hp, h1, h2, hq⟩
      rw [hsplit] at hsplit2
      obtain ⟨rfl, rfl⟩ : p = p2 ∧ q = q2 := by simpa using hsplit2
      exact ⟨⟨⟨hp, h1⟩, h2⟩, hq⟩

theorem rangeShapeL_iff (l : List Char) :
    rangeShapeL l = true ↔ ∃ x y, splitOnChar '-' l = [x, y] ∧
      ipv4ShapeL x = true ∧ ipv4ShapeL y = true := by
  rw [rangeShapeL]
  cases htwo : two? (splitOnChar '-' l) with
  | none =>
    simp only [Bool.false_eq_true, false_iff]
    rintro ⟨x, y, hsplit, -⟩
    rw [(two?_eq_some_iff (splitOnChar '-' l) x y).mpr hsplit] at htwo
    exact Option.noConfusion htwo
  | some xy =>
    obtain ⟨x, y⟩ := xy
    have hsplit := (two?_eq_some_iff (splitOnChar '-' l) x y).mp htwo
    simp only [Bool.and_eq_true]
    constructor
    · rintro ⟨hx, hy⟩
      exact ⟨x, y, hsplit, hx, hy⟩
    · rintro ⟨x2, y2, hsplit2, hx, hy⟩
      rw [hsplit] at hsplit2
      obtain ⟨rfl, rfl⟩ : x = x2 ∧ y = y2 := by simpa using hsplit2
      exact ⟨hx, hy⟩

theorem WildcardTok_not_ipv4ShapeL (p : List Char) (hw : WildcardTok p)
    (hs : ipv4ShapeL p = true) : False := by
  rcases hw with rfl | hmap
  · exact absurd hs (by decide)
  · have hlen : p.length = 3 := by
      have := congrArg List.length hmap
      simpa using this
    have := ipv4ShapeL_length p hs
    omega

theorem IPv4Tok_not_mem (p : List Char) (hp : IPv4Tok p) (d : Char)
    (hd1 : d.isDigit = false) (hd2 : d ≠ '.') : d ∉ p := by
  intro hmem
  rcases IPv4Tok_chars p hp d hmem with h | h
  · rw [h] at hd1; exact Bool.noConfusion hd1
  · exact hd2 h

theorem validateIPCore_iff (l : List Char) :
    validateIPCore l = true ↔ WildcardTok l ∨ IPv4Tok l ∨ CidrTok l ∨ RangeTok l := by
  constructor
  · intro h
    rw [validateIPCore] at h
    by_cases hw : wildcardL l = true
    · exact Or.inl ((wildcardL_iff l).mp hw)
    rw [if_neg (by simp [hw])] at h
    by_cases h4 : ipv4ShapeL l = true
    · rw [if_pos h4] at h
      exact Or.inr (Or.inl ((IPv4Tok_iff l).mpr ⟨h4, h⟩))
    rw [if_neg h4] at h
    by_cases hc : cidrShapeL l = true
    · rw [if_pos hc] at h
      obtain ⟨p, q, hsplit, hp4, hq1, hq2, hqd⟩ := (cidrShapeL_iff l).mp hc
      rw [(two?_eq_some_iff (splitOnChar '/' l) p q).mpr hsplit] at h
      simp only [Bool.and_eq_true] at h
      obtain ⟨hsingle, hpre⟩ := h
      have hqne : q ≠ [] := by
        intro he; rw [he] at hq1; exact absurd hq1 (by simp)
      have hp : IPv4Tok p := by
        rcases (singleIPv4_iff p).mp hsingle with hwp | hp
        · exact absurd (WildcardTok_not_ipv4ShapeL p hwp hp4) (by simp)
        · exact hp
      obtain ⟨-, -, hl⟩ := (splitOnChar_eq_pair_iff '/' l p q).mp hsplit
      exact Or.inr (Or.inr (Or.inl ⟨p, q, hl, hp, hq1, hq2, hqd,
        (prefixValOk_digits q hqne hqd).mp hpre⟩))
    rw [if_neg hc] at h
    by_cases hr : rangeShapeL l = true
    · rw [if_pos hr] at h
      obtain ⟨x, y, hsplit, hx4, hy4⟩ := (rangeShapeL_iff l).mp hr
      rw [(two?_eq_some_iff (splitOnChar '-' l) x y).mpr hsplit] at h
      simp only [Bool.and_eq_true] at h
      obtain ⟨hsx, hsy⟩ := h
      have hx : IPv4Tok x := by
        rcases (singleIPv4_iff x).mp hsx with hwx | hx
        · exact absurd (WildcardTok_not_ipv4ShapeL x hwx hx4) (by simp)
        · exact hx
      have hy : IPv4Tok y := by
        rcases (singleIPv4_iff y).mp hsy with hwy | hy
        · exact absurd (WildcardTok_not_ipv4ShapeL y hwy hy4) (by simp)
        · exact hy
      obtain ⟨-, -, hl⟩ := (splitOnChar_eq_pair_iff '-' l x y).mp hsplit
      exact Or.inr (Or.inr (Or.inr ⟨x, y, hl, hx, hy⟩))
    rw [if_neg hr] at h
    exact Bool.noConfusion h
  · intro h
    rw [validateIPCore]
    by_cases hw : wildcardL l = true
    · rw [if_pos hw]
    rw [if_neg (by simp [hw])]
    rcases h with hW | h4 | hC | hR
    · exact absurd ((wildcardL_iff l).mpr hW) hw
    · obtain ⟨hshape, hall⟩ := (IPv4Tok_iff l).mp h4
      rw [if_pos hshape]
      exact hall
    · obtain ⟨p, q, rfl, hp, hq1, hq2, hqd, hle⟩ := hC
      have hqne : q ≠ [] := by
        intro he; rw [he] at hq1; exact absurd hq1 (by simp)
      have hshape : ipv4ShapeL (p ++ '/' :: q) = false := by
        cases hsh : ipv4ShapeL (p ++ '/' :: q) with
        | false => rfl
        | true =>
          have hm : '/' ∈ p ++ '/' :: q := List.mem_append_right p (List.mem_cons_self '/' q)
          rcases ipv4ShapeL_chars _ hsh '/' hm with hdig | hdot
          · exact absurd hdig (by decide)
          · exact absurd hdot (by decide)
      have hsplit : splitOnChar '/' (p ++ '/' :: q) = [p, q] :=
        (splitOnChar_eq_pair_iff '/' _ p q).mpr
          ⟨IPv4Tok_not_mem p hp '/' (by decide) (by decide),
            not_mem_of_digit_run q '/' hqd (by decide), rfl⟩
      have htwo : two? (splitOnChar '/' (p ++ '/' :: q)) = some (p, q) :=
        (two?_eq_some_iff _ p q).mpr hsplit
      have hcs : cidrShapeL (p ++ '/' :: q) = true := by
        rw [cidrShapeL, htwo]
        simp only [Bool.and_eq_true, decide_eq_true_iff, List.all_eq_true]
        exact ⟨⟨⟨((IPv4Tok_iff p).mp hp).1, hq1⟩, hq2⟩, hqd⟩
      rw [if_neg (by simp [hshape]), if_pos hcs, htwo]
      simp only [Bool.and_eq_true]
      exact ⟨(singleIPv4_iff p).mpr (Or.inr hp),
        (prefixValOk_digits q hqne hqd).mpr hle⟩
    · obtain ⟨x, y, rfl, hx, hy⟩ := hR
      have hshape : ipv4ShapeL (x ++ '-' :: y) = false := by
        cases hsh : ipv4ShapeL (x ++ '-' :: y) with
        | false => rfl
        | true =>
          have hm : '-' ∈ x ++ '-' :: y := List.mem_append_right x (List.mem_cons_self '-' y)
          rcases ipv4ShapeL_chars _ hsh '-' hm with hdig | hdot
          · exact absurd hdig (by decide)
          · exact absurd hdot (by decide)
      have hnoslash : '/' ∉ x ++ '-' :: y := by
        intro hmem
        rcases List.mem_append.mp hmem with hmx | hmy
        · exact IPv4Tok_not_mem x hx '/' (by decide) (by decide) hmx
        · rcases List.mem_cons.mp hmy with heq | hmy2
          · exact absurd heq (by decide)
          · exact IPv4Tok_not_mem y hy '/' (by decide) (by decide) hmy2
      have hcs : cidrShapeL (x ++ '-' :: y) = false := by
        rw [cidrShapeL, splitOnChar_of_not_mem '/' _ hnoslash]
        rfl
      have hsplit : splitOnChar '-' (x ++ '-' :: y) = [x, y] :=
        (splitOnChar_eq_pair_iff '-' _ x y).mpr
          ⟨IPv4Tok_not_mem x hx '-' (by decide) (by decide),
            IPv4Tok_not_mem y hy '-' (by decide) (by decide), rfl⟩
      have htwo : two? (splitOnChar '-' (x ++ '-' :: y)) = some (x, y) :=
        (two?_eq_some_iff _ x y).mpr hsplit
      have hrs : rangeShapeL (x ++ '-' :: y) = true := by
        rw [rangeShapeL, htwo]
        simp only [Bool.and_eq_true]
        exact ⟨((IPv4Tok_iff x).mp hx).1, ((IPv4Tok_iff y).mp hy).1⟩
      rw [if_neg (by simp [hshape]), if_neg (by simp [hcs]), if_pos hrs, htwo]
      simp only [Bool.and_eq_true]
      exact ⟨(singleIPv4_iff x).mpr (Or.inr hx), (singleIPv4_iff y).mpr (Or.inr hy)⟩

theorem firstTwo?_eq_some_iff (xs : List (List Char)) (a b : List Char) :
    firstTwo? xs = some (a, b) ↔ ∃ rest, xs = a :: b :: rest := by
  constructor
  · intro h
    rcases xs with _ | ⟨x1, _ | ⟨x2, t⟩⟩ <;> simp_all [firstTwo?]
  · rintro ⟨rest, rfl⟩; rfl

theorem rangeVals_iff (s e : Option Int) :
    rangeVals s e = true ↔ ∃ m n : Int, s = some m ∧ e = some n ∧
      1 ≤ m ∧ m ≤ 65535 ∧ 1 ≤ n ∧ n ≤ 65535 ∧ m ≤ n := by
  cases s with
  | none => simp [rangeVals]
  | some m =>
    cases e with
    | none => simp [rangeVals]
    | some n =>
      simp only [rangeVals, Bool.and_eq_true, decide_eq_true_iff, Option.some_inj]
      constructor
      · rintro ⟨⟨⟨⟨h1, h2⟩, h3⟩, h4⟩, h5⟩
        exact ⟨m, n, rfl, rfl, h1, h2, h3, h4, h5⟩
      · rintro ⟨m2, n2, rfl, rfl, h1, h2, h3, h4, h5⟩
        exact ⟨⟨⟨⟨h1, h2⟩, h3⟩, h4⟩, h5⟩

theorem portNoComma_iff (l : List Char) : portNoComma l = true ↔ LenientNC l := by
  rw [portNoComma, LenientNC]
  by_cases hd : '-' ∈ l
  · rw [if_pos hd]
    simp only [hd, not_true_eq_false, false_and, or_false, true_and]
    cases hft : firstTwo? (splitOnChar '-' l) with
    | none =>
      simp only [Bool.false_eq_true, false_iff]
      rintro ⟨a2, b2, rest2, hsplit2, -⟩
      rw [(firstTwo?_eq_some_iff (splitOnChar '-' l) a2 b2).mpr ⟨rest2, hsplit2⟩] at hft
      exact Option.noConfusion hft
    | some ab =>
      obtain ⟨a, b⟩ := ab
      obtain ⟨rest, hsplit⟩ := (firstTwo?_eq_some_iff (splitOnChar '-' l) a b).mp hft
      rw [rangeVals_iff]
      constructor
      · rintro ⟨m, n, hm, hn, hb⟩
        exact ⟨a, b, rest, hsplit, m, n, hm, hn, hb⟩
      · rintro ⟨a2, b2, rest2, hsplit2, m, n, hm, hn, hb⟩
        rw [hsplit] at hsplit2
        obtain ⟨rfl, rfl, rfl⟩ : a = a2 ∧ b = b2 ∧ rest = rest2 := by simpa using hsplit2
        exact ⟨m, n, hm, hn, hb⟩
  · rw [if_neg hd]
    simp only [hd, not_false_eq_true, true_and, false_and, or_false, false_or]
    cases hp : jsParseIntL l with
    | none =>
      simp only [Bool.false_eq_true, false_iff]
      rintro ⟨n, hn, -⟩
      exact Option.noConfusion hn
    | some n =>
      simp only [Bool.and_eq_true, decide_eq_true_iff, Option.some_inj]
      constructor
      · rintro ⟨h1, h2⟩
        exact ⟨n, rfl, h1, h2⟩
      · rintro ⟨n2, rfl, h1, h2⟩
        exact ⟨h1, h2⟩

theorem portTok_iff (t : List Char) (protocol : String) :
    portTok t protocol = true ↔ WildcardTok t ∨ protocol = "ICMP" ∨ LenientNC t := by
  rw [portTok]
  by_cases hw : wildcardL t = true
  · simp [hw, (wildcardL_iff t).mp hw]
  · rw [if_neg (by simp [hw])]
    have hnw : ¬WildcardTok t := fun h => hw ((wildcardL_iff t).mpr h)
    by_cases hi : protocol = "ICMP"
    · simp [hi]
    · rw [if_neg (by simp [hi] : ¬(protocol == "ICMP") = true)]
      rw [portNoComma_iff]
      simp [hnw, hi]

theorem validatePortCore_iff (l : List Char) (protocol : String) :
    validatePortCore l protocol = true ↔
      WildcardTok l ∨ protocol = "ICMP" ∨
        (',' ∈ l ∧ ∀ t ∈ splitOnChar ',' l, LenientAtom (trimL t)) ∨
        (',' ∉ l ∧ LenientNC l) := by
  rw [validatePortCore]
  by_cases hw : wildcardL l = true
  · simp [hw, (wildcardL_iff l).mp hw]
  · rw [if_neg (by simp [hw])]
    have hnw : ¬WildcardTok l := fun h => hw ((wildcardL_iff l).mpr h)
    by_cases hi : protocol = "ICMP"
    · simp [hi]
    · rw [if_neg (by simp [hi] : ¬(protocol == "ICMP") = true)]
      by_cases hcm : ',' ∈ l
      · rw [if_pos hcm]
        simp only [List.all_eq_true, hnw, false_or, hi, hcm, not_true_eq_false, false_and,
          or_false, true_and]
        constructor
        · intro h t ht
          rcases (portTok_iff (trimL t) protocol).mp (h t ht) with h1 | h1 | h1
          · exact Or.inl h1
          · exact absurd h1 hi
          · exact Or.inr h1
        · intro h t ht
          rcases h t ht with h1 | h1
          · exact (portTok_iff (trimL t) protocol).mpr (Or.inl h1)
          · exact (portTok_iff (trimL t) protocol).mpr (Or.inr (Or.inr h1))
      · rw [if_neg hcm, portNoComma_iff]
        simp [hnw, hi, hcm]

theorem filter_orderedInsert (p : Int) (a : FirewallRule) (l : List FirewallRule) :
    (List.orderedInsert priLE a l).filter (fun r => r.priority == p)
      = if a.priority == p then a :: l.filter (fun r => r.priority == p)
        else l.filter (fun r => r.priority == p) := by
  induction l with
  | nil =>
    by_cases h : (a.priority == p) = true <;> simp [List.filter_cons, h]
  | cons b t ih =>
    rw [List.orderedInsert]
    by_cases hr : priLE a b
    · rw [if_pos hr]
      by_cases hap : (a.priority == p) = true <;> by_cases hbp : (b.priority == p) = true <;>
        simp [List.filter_cons, hap, hbp]
    · rw [if_neg hr]
      have hlt : b.priority < a.priority := by
        have h2 : ¬a.priority ≤ b.priority := hr
        omega
      by_cases hap : (a.priority == p) = true
      · have hap2 : a.priority = p := by rwa [beq_iff_eq] at hap
        have hbp : (b.priority == p) = false := by
          rw [beq_eq_false_iff_ne]
          omega
        simp [List.filter_cons, hap, hbp, ih]
      · by_cases hbp : (b.priority == p) = true <;> simp [List.filter_cons, hap, hbp, ih]

theorem filter_insertionSort (p : Int) (l : List FirewallRule) :
    (List.insertionSort priLE l).filter (fun r => r.priority == p)
      = l.filter (fun r => r.priority == p) := by
  induction l with
  | nil => rfl
  | cons a t ih =>
    rw [List.insertionSort, filter_orderedInsert, ih]
    by_cases hap : (a.priority == p) = true <;> simp [List.filter_cons, hap]

theorem ne_append_of_ne (a b : String) (hlen : a.data.length = b.data.length)
    (hne : a ≠ b) (x y : String) : a ++ x ≠ b ++ y := by
  intro h
  apply hne
  have hd := congrArg String.data h
  rw [String.data_append, String.data_append] at hd
  obtain ⟨h1, -⟩ := List.append_inj hd hlen
  exact String.ext h1

theorem mem_ite_singleton (c : Prop) [Decidable c] (t a : String)
    (h : t ∈ if c then [a] else ([] : List String)) : c ∧ t = a := by
  by_cases hc : c
  · rw [if_pos hc] at h
    exact ⟨hc, List.mem_singleton.mp h⟩
  · rw [if_neg hc] at h
    exact absurd h (List.not_mem_nil t)

theorem mem_ruleSegments (r : FirewallRule) (t : String) (ht : t ∈ ruleSegments r) :
    t = "iptables -A INPUT"
    ∨ (∃ y, t = " -p " ++ y)
    ∨ ((r.sourceIp ≠ "*" ∧ r.sourceIp ≠ "ANY") ∧ t = " -s " ++ r.sourceIp)
    ∨ ((r.destinationIp ≠ "*" ∧ r.destinationIp ≠ "ANY") ∧ t = " -d " ++ r.destinationIp)
    ∨ (∃ y, t = " --sport " ++ y)
    ∨ (∃ y, t = " --dport " ++ y)
    ∨ t = " -j ACCEPT" ∨ t = " -j DROP" := by
  rw [ruleSegments] at ht
  simp only [List.mem_append, List.mem_cons, List.not_mem_nil, or_false] at ht
  rcases ht with ((((hbase | hproto) | hsrc) | hdst) | hports) | hact
  · exact Or.inl hbase
  · obtain ⟨-, heq⟩ := mem_ite_singleton _ t _ hproto
    exact Or.inr (Or.inl ⟨jsToLower r.protocol, heq⟩)
  · obtain ⟨hc, heq⟩ := mem_ite_singleton _ t _ hsrc
    exact Or.inr (Or.inr (Or.inl ⟨hc, heq⟩))
  · obtain ⟨hc, heq⟩ := mem_ite_singleton _ t _ hdst
    exact Or.inr (Or.inr (Or.inr (Or.inl ⟨hc, heq⟩)))
  · by_cases hguard : r.protocol ≠ "ICMP" ∧ r.protocol ≠ "ALL"
    · rw [if_pos hguard] at hports
      rcases List.mem_append.mp hports with hsp | hdp
      · obtain ⟨-, heq⟩ := mem_ite_singleton _ t _ hsp
        exact Or.inr (Or.inr (Or.inr (Or.inr (Or.inl ⟨r.sourcePort, heq⟩))))
      · obtain ⟨-, heq⟩ := mem_ite_singleton _ t _ hdp
        exact Or.inr (Or.inr (Or.inr (Or.inr (Or.inr (Or.inl ⟨r.destinationPort, heq⟩)))))
    · rw [if_neg hguard] at hports
      exact absurd hports (List.not_mem_nil t)
  · by_cases hall : r.action = "ALLOW"
    · rw [if_pos hall] at hact
      exact Or.inr (Or.inr (Or.inr (Or.inr (Or.inr (Or.inr (Or.inl hact))))))
    · rw [if_neg hall] at hact
      exact Or.inr (Or.inr (Or.inr (Or.inr (Or.inr (Or.inr (Or.inr hact))))))

theorem srcSeg_mem_iff (r : FirewallRule) :
    (" -s " ++ r.sourceIp) ∈ ruleSegments r ↔ r.sourceIp ≠ "*" ∧ r.sourceIp ≠ "ANY" := by
  constructor
  · intro h
    rcases mem_ruleSegments r _ h with h1 | ⟨y, h1⟩ | ⟨hc, -⟩ | ⟨-, h1⟩ | ⟨y, h1⟩ | ⟨y, h1⟩
      | h1 | h1
    · rw [show ("iptables -A INPUT" : String) = "ipta" ++ "bles -A INPUT" from rfl] at h1
      exact absurd h1 (ne_append_of_ne " -s " "ipta" (by decide) (by decide) _ _)
    · exact absurd h1 (ne_append_of_ne " -s " " -p " (by decide) (by decide) _ _)
    · exact hc
    · exact absurd h1 (ne_append_of_ne " -s " " -d " (by decide) (by decide) _ _)
    · rw [show (" --sport " : String) ++ y = " --s" ++ ("port " ++ y) from by
        rw [show (" --sport " : String) = " --s" ++ "port " from rfl, String.append_assoc]] at h1
      exact absurd h1 (ne_append_of_ne " -s " " --s" (by decide) (by decide) _ _)
    · rw [show (" --dport " : String) ++ y = " --d" ++ ("port " ++ y) from by
        rw [show (" --dport " : String) = " --d" ++ "port " from rfl, String.append_assoc]] at h1
      exact absurd h1 (ne_append_of_ne " -s " " --d" (by decide) (by decide) _ _)
    · rw [show (" -j ACCEPT" : String) = " -j " ++ "ACCEPT" from rfl] at h1
      exact absurd h1 (ne_append_of_ne " -s " " -j " (by decide) (by decide) _ _)
    · rw [show (" -j DROP" : String) = " -j " ++ "DROP" from rfl] at h1
      exact absurd h1 (ne_append_of_ne " -s " " -j " (by decide) (by decide) _ _)
  · intro h
    rw [ruleSegments]
    simp only [List.mem_append, List.mem_cons, if_pos h, List.mem_singleton]
    tauto

theorem dstSeg_mem_iff (r : FirewallRule) :
    (" -d " ++ r.destinationIp) ∈ ruleSegments r ↔
      r.destinationIp ≠ "*" ∧ r.destinationIp ≠ "ANY" := by
  constructor
  · intro h
    rcases mem_ruleSegments r _ h with h1 | ⟨y, h1⟩ | ⟨-, h1⟩ | ⟨hc, -⟩ | ⟨y, h1⟩ | ⟨y, h1⟩
      | h1 | h1
    · rw [show ("iptables -A INPUT" : String) = "ipta" ++ "bles -A INPUT" from rfl] at h1
      exact absurd h1 (ne_append_of_ne " -d " "ipta" (by decide) (by decide) _ _)
    · exact absurd h1 (ne_append_of_ne " -d " " -p " (by decide) (by decide) _ _)
    · exact absurd h1 (ne_append_of_ne " -d " " -s " (by decide) (by decide) _ _)
    · exact hc
    · rw [show (" --sport " : String) ++ y = " --s" ++ ("port " ++ y) from by
        rw [show (" --sport " : String) = " --s" ++ "port " from rfl, String.append_assoc]] at h1
      exact absurd h1 (ne_append_of_ne " -d " " --s" (by decide) (by decide) _ _)
    · rw [show (" --dport " : String) ++ y = " --d" ++ ("port " ++ y) from by
        rw [show (" --dport " : String) = " --d" ++ "port " from rfl, String.append_assoc]] at h1
      exact absurd h1 (ne_append_of_ne " -d " " --d" (by decide) (by decide) _ _)
    · rw [show (" -j ACCEPT" : String) = " -j " ++ "ACCEPT" from rfl] at h1
      exact absurd h1 (ne_append_of_ne " -d " " -j " (by decide) (by decide) _ _)
    · rw [show (" -j DROP" : String) = " -j " ++ "DROP" from rfl] at h1
      exact absurd h1 (ne_append_of_ne " -d " " -j " (by decide) (by decide) _ _)
  · intro h
    rw [ruleSegments]
    simp only [List.mem_append, List.mem_cons, if_pos h, List.mem_singleton]
    tauto

theorem digitChar10_isDigit (n : Nat) : (digitChar10 n).isDigit = true := by
  unfold digitChar10
  split <;> rfl

theorem digitVal_digitChar10 (n : Nat) (h : n < 10) : digitVal (digitChar10 n) = n := by
  interval_cases n <;> rfl

theorem digitsVal_append_singleton (xs : List Char) (c : Char) :
    digitsVal (xs ++ [c]) = digitsVal xs * 10 + digitVal c := by
  simp [digitsVal, List.foldl_append]

theorem natToDec_all_digits (n : Nat) : ∀ c ∈ natToDec n, c.isDigit = true := by
  induction n using natToDec.induct with
  | case1 n h =>
    rw [natToDec, dif_pos h]
    intro c hc
    rw [List.mem_singleton.mp hc]
    exact digitChar10_isDigit n
  | case2 n h ih =>
    rw [natToDec, dif_neg h]
    intro c hc
    rcases List.mem_append.mp hc with hm | hm
    · exact ih c hm
    · rw [List.mem_singleton.mp hm]
      exact digitChar10_isDigit (n % 10)

theorem natToDec_ne_nil (n : Nat) : natToDec n ≠ [] := by
  rw [natToDec]
  split
  · simp
  · simp

theorem digitsVal_natToDec (n : Nat) : digitsVal (natToDec n) = n := by
  induction n using natToDec.induct with
  | case1 n h =>
    rw [natToDec, dif_pos h]
    have : digitsVal [digitChar10 n] = digitVal (digitChar10 n) := by
      simp [digitsVal]
    rw [this, digitVal_digitChar10 n h]
  | case2 n h ih =>
    rw [natToDec, dif_neg h, digitsVal_append_singleton, ih,
      digitVal_digitChar10 (n % 10) (Nat.mod_lt n (by omega))]
    omega

theorem parseDate_isoOfDate (t : Int) : parseDate (isoOfDate (some t)) = some t := by
  rw [isoOfDate]
  by_cases hneg : t < 0
  · rw [if_pos hneg]
    have hdata : (⟨'-' :: natToDec t.natAbs⟩ : String).data = '-' :: natToDec t.natAbs := rfl
    rw [parseDate, hdata]
    rw [if_neg (by simp), if_pos (by simp)]
    rw [if_pos ⟨by simpa using natToDec_ne_nil t.natAbs, by
      simpa [List.all_eq_true] using natToDec_all_digits t.natAbs⟩]
    simp only [List.tail_cons, digitsVal_natToDec, Option.some_inj]
    omega
  · rw [if_neg hneg]
    have hdata : (⟨natToDec t.toNat⟩ : String).data = natToDec t.toNat := rfl
    obtain ⟨c, cs, hcons⟩ := List.exists_cons_of_ne_nil (natToDec_ne_nil t.toNat)
    have hcd : c.isDigit = true := natToDec_all_digits t.toNat c (by rw [hcons]; simp)
    have hcne : c ≠ '-' := by
      intro he; rw [he] at hcd; exact absurd hcd (by decide)
    rw [parseDate, hdata, hcons]
    rw [if_neg (by simp), if_neg (by simpa using hcne)]
    rw [if_pos (by
      have := natToDec_all_digits t.toNat
      rw [hcons] at this
      simpa [List.all_eq_true] using this)]
    rw [← hcons, digitsVal_natToDec]
    simp only [Option.some_inj]
    omega

/-- C5: `isValidAddress` returns true exactly for a case-insensitive wildcard
token (`*`/`ANY`), a single IPv4 of four dot-separated decimal octets in
`[0, 255]` with no leading or trailing characters, a CIDR whose address part
is a valid single IPv4 and whose prefix numeral is in `[0, 32]`, or a range
whose two operands are valid single IPv4 addresses; in particular the eight
listed example judgements hold. -/
theorem C5_isValidAddress_grammar :
    (∀ s : String, validateIP s = true ↔ AddrSpecOk s)
    ∧ validateIP "*" = true ∧ validateIP "ANY" = true ∧ validateIP "any" = true
    ∧ validateIP "10.0.0.0/24" = true ∧ validateIP "10.0.0.1-10.0.0.255" = true
    ∧ validateIP "256.1.1.1" = false ∧ validateIP "10.0.0.0/33" = false
    ∧ validateIP "10.0.0.1-999.0.0.1" = false := by
  refine ⟨fun s => ?_, by decide, by decide, by decide, by decide, by decide, by decide,
    by decide, by decide⟩
  rw [validateIP, AddrSpecOk]
  exact validateIPCore_iff s.data

/-- C6: for any two strings that are each valid single IPv4 addresses, the
dash concatenation passes `isValidAddress`; the range validator imposes no
ordering between the operands, so this holds also when the first address is
numerically greater than the second. -/
theorem C6_range_no_order_check (a b : String)
    (ha : IPv4Tok a.data) (hb : IPv4Tok b.data) :
    validateIP (a ++ "-" ++ b) = true := by
  rw [validateIP]
  have hdata : (a ++ "-" ++ b).data = a.data ++ '-' :: b.data := by
    rw [String.data_append, String.data_append]
    simp
  rw [hdata]
  exact (validateIPCore_iff _).mpr
    (Or.inr (Or.inr (Or.inr ⟨a.data, b.data, rfl, ha, hb⟩)))

/-- C6 witness: `10.0.0.9-10.0.0.1` is accepted although the start address is
numerically greater than the end address. -/
theorem C6_range_no_order_check_witness :
    IPv4Tok ("10.0.0.9" : String).data ∧ IPv4Tok ("10.0.0.1" : String).data ∧
      validateIP ("10.0.0.9" ++ "-" ++ "10.0.0.1") = true :=
  ⟨⟨['1', '0'], ['0'], ['0'], ['9'], by decide, by decide, by decide, by decide, by decide⟩,
   ⟨['1', '0'], ['0'], ['0'], ['1'], by decide, by decide, by decide, by decide, by decide⟩,
   C6_range_no_order_check "10.0.0.9" "10.0.0.1"
     ⟨['1', '0'], ['0'], ['0'], ['9'], by decide, by decide, by decide, by decide, by decide⟩
     ⟨['1', '0'], ['0'], ['0'], ['1'], by decide, by decide, by decide, by decide, by decide⟩⟩

/-- C10: on the empty string, `isValidAddress` returns false, `isValidPort`
returns false for every protocol other than `ICMP`, and the ICMP exemption
makes `isValidPort("", ICMP)` true. -/
theorem C10_empty_string_matchers :
    validateIP "" = false
    ∧ (∀ p : String, p ≠ "ICMP" → validatePort "" p = false)
    ∧ validatePort "" "ICMP" = true := by
  refine ⟨by decide, fun p hp => ?_, by decide⟩
  rw [validatePort, validatePortCore]
  rw [if_neg (by decide), if_neg (by simp [hp] : ¬(p == "ICMP") = true),
    if_neg (by decide)]
  decide

/-- C1: `compileScript` keeps only the enabled rules and stable-sorts them
by ascending priority — the compiled block list is sorted by priority, every
rule appearing in it is enabled (a disabled rule never contributes a block),
ties keep the original insertion order (the filter-by-priority
characterisation of stability), the output is exactly the fixed preamble,
the per-rule blocks of the sorted enabled rules in order, and the trailing
commented logging suggestion — and for an empty enabled set it is the full
preamble followed directly by the trailer, with zero per-rule blocks. -/
theorem C1_compileScript_order (ts : String) (rules : List FirewallRule) :
    List.Sorted priLE (enabledSorted rules)
    ∧ (∀ r ∈ enabledSorted rules, r.enabled = true)
    ∧ (∀ p : Int, (enabledSorted rules).filter (fun r => r.priority == p)
        = (rules.filter (fun r => r.enabled)).filter (fun r => r.priority == p))
    ∧ exportToIptables ts rules
        = preamble ts (enabledSorted rules).length
          ++ String.join ((enabledSorted rules).enum.map (fun q => ruleBlock q.1 q.2))
          ++ trailer
    ∧ (rules.filter (fun r => r.enabled) = [] →
        exportToIptables ts rules = preamble ts 0 ++ trailer) := by
  refine ⟨List.sorted_insertionSort priLE _, ?_, fun p => filter_insertionSort p _, rfl, ?_⟩
  · intro r hr
    have hperm := List.perm_insertionSort priLE (rules.filter (fun r => r.enabled))
    exact (List.mem_filter.mp (hperm.mem_iff.mp hr)).2
  · intro hempty
    rw [exportToIptables, enabledSorted, hempty]
    simp [List.insertionSort, String.join, String.append_empty]

/-- C2 counterexample: the lower-case `any` is a wildcard under the claim's
case-insensitive reading (and passes the validator), yet the compiler emits
a source-match clause ` -s any` for it — the source-clause test compares
only against the literals `'*'` and `'ANY'`. -/
theorem C2_lowercase_any_counterexample :
    ClaimWildcardS "any" ∧ validateIP "any" = true
    ∧ (" -s " ++ "any") ∈ ruleSegments ruleAnySource
    ∧ ruleCommand ruleAnySource = "iptables -A INPUT -p tcp -s any -j ACCEPT" := by
  refine ⟨by decide, by decide, by decide, by decide⟩

/-- C2 (amended): the directive of a compiled rule contains the source-match
clause exactly when the source address differs from both literals `'*'` and
`'ANY'` (case-sensitively — lower-case `any` still gets a clause), and the
destination-match clause exactly when the destination address differs from
those literals; the directive line is the concatenation of its clause
segments. -/
theorem C2_wildcard_clause_amended (r : FirewallRule) :
    ((" -s " ++ r.sourceIp) ∈ ruleSegments r ↔ r.sourceIp ≠ "*" ∧ r.sourceIp ≠ "ANY")
    ∧ ((" -d " ++ r.destinationIp) ∈ ruleSegments r ↔
        r.destinationIp ≠ "*" ∧ r.destinationIp ≠ "ANY")
    ∧ ruleCommand r = String.join (ruleSegments r) :=
  ⟨srcSeg_mem_iff r, dstSeg_mem_iff r, rfl⟩

/-- C4 counterexample: `isValidPort` accepts `"80x"` (a token with trailing
non-digit characters, which the claim calls malformed) and `"1-2-3"` (which
matches none of the claim's forms), because `parseInt` reads the longest
numeric prefix and the range destructuring ignores dash fields beyond the
first two — so the claim's characterisation of the accepted set is false at
these inputs. -/
theorem C4_lenient_parseInt_counterexample :
    validatePort "80x" "TCP" = true ∧ ¬StrictPortSpec "80x" "TCP"
    ∧ validatePort "1-2-3" "TCP" = true ∧ ¬StrictPortSpec "1-2-3" "TCP" := by
  refine ⟨by decide, ?_, by decide, ?_⟩
  · rintro (h | h | h | h | h)
    · exact absurd h (by decide)
    · exact absurd h (by decide)
    · exact absurd h (by decide)
    · obtain ⟨a, b, heq, -, -, -⟩ := h
      have hm : '-' ∈ ("80x" : String).data := by
        rw [heq]
        exact List.mem_append_right a (List.mem_cons_self '-' b)
      exact absurd hm (by decide)
    · exact absurd h.1 (by decide)
  · rintro (h | h | h | h | h)
    · exact absurd h (by decide)
    · exact absurd h (by decide)
    · exact absurd h (by decide)
    · obtain ⟨a, b, heq, hIa, hIb, -⟩ := h
      have hna : '-' ∉ a := not_mem_of_digit_run a '-' hIa.2.1 (by decide)
      have hval : splitOnChar '-' (("1-2-3" : String).data) = [['1'], ['2'], ['3']] := by
        decide
      rw [heq, splitOnChar_append '-' a b hna] at hval
      simp only [List.cons.injEq] at hval
      have hbeq : b = ['2', '-', '3'] := by
        have hj := joinSep_splitOnChar '-' b
        rw [hval.2] at hj
        simpa [joinSep] using hj.symm
      have hdig : ('-' : Char).isDigit = true := hIb.2.1 '-' (by rw [hbeq]; simp)
      exact absurd hdig (by decide)
    · exact absurd h.1 (by decide)

/-- C4 (amended): `isValidPort` accepts exactly the case-insensitive
wildcard tokens, everything under ICMP, comma-separated lists whose every
trimmed token is itself valid, dash forms whose first two dash-separated
fields `parseInt` (leniently: optional sign, `0x` hexadecimal, longest
numeric prefix with trailing characters ignored) to values in `[1, 65535]`
with the first at most the second (further dash fields ignored), and single
dash-free tokens whose lenient `parseInt` value is in `[1, 65535]`; a token
with no leading numeric prefix is invalid.  All the claim's example
judgements hold. -/
theorem C4_isValidPort_lenient :
    (∀ s p : String, validatePort s p = true ↔ LenientPortSpec s p)
    ∧ validatePort "22" "TCP" = true ∧ validatePort "0" "TCP" = false
    ∧ validatePort "65536" "TCP" = false ∧ validatePort "80,443" "TCP" = true
    ∧ validatePort "90-80" "TCP" = false ∧ (∀ s : String, validatePort s "ICMP" = true) := by
  refine ⟨fun s p => ?_, by decide, by decide, by decide, by decide, by decide, fun s => ?_⟩
  · rw [validatePort, LenientPortSpec]
    exact validatePortCore_iff s.data p
  · rw [validatePort]
    exact (validatePortCore_iff s.data "ICMP").mpr (Or.inr (Or.inl rfl))

theorem businessFields_decode_encode (nid : String) (r : FirewallRule)
    (h1 : r.createdAt.isSome = true) (h2 : r.updatedAt.isSome = true) :
    businessFields (decodeRecord nid (encodeRule r)) = businessFields r := by
  obtain ⟨t1, ht1⟩ := Option.isSome_iff_exists.mp h1
  obtain ⟨t2, ht2⟩ := Option.isSome_iff_exists.mp h2
  simp [businessFields, decodeRecord, encodeRule, ht1, ht2, parseDate_isoOfDate]

theorem decode_encode_business (fresh : Nat → String) (k : Nat) (rs : List FirewallRule)
    (hwf : ∀ r ∈ rs, r.createdAt.isSome = true ∧ r.updatedAt.isSome = true) :
    ((rs.map encodeRule).enumFrom k).map
        (fun q => businessFields (decodeRecord (fresh q.1) q.2))
      = rs.map businessFields := by
  induction rs generalizing k with
  | nil => rfl
  | cons r t ih =>
    have hr := hwf r (List.mem_cons_self r t)
    simp only [List.map_cons, List.enumFrom_cons]
    rw [businessFields_decode_encode (fresh k) r hr.1 hr.2,
      ih (k + 1) (fun x hx => hwf x (List.mem_cons_of_mem r hx))]

/-- C3 counterexample: for the well-formed empty collection,
`decodeRuleSet(encodeRuleSet([]))` is the "No valid rules found" outcome,
not a successful import of a same-length (empty) collection — the decoder
treats zero accepted records as a failure distinct from success. -/
theorem C3_empty_roundtrip_counterexample :
    decodeRuleSet (fun _ => "fresh") (.wrapped (encodeRuleSet "2024-01-01" []).rules)
        = .noValidRules
    ∧ decodeRuleSet (fun _ => "fresh") (.wrapped (encodeRuleSet "2024-01-01" []).rules)
        ≠ .imported [] 0 := by
  exact ⟨by decide, by decide⟩

/-- C3 (amended): for every nonempty well-formed collection (each rule has
nonempty `id`, `name` and `action`, and valid timestamps), decoding the
encoded document succeeds, accepts every record, and reproduces every rule's
business fields — name, action, protocol, addresses, ports, priority,
enabled flag, description and both timestamps — in order; only the ids are
regenerated. -/
theorem C3_roundtrip_amended (d : String) (fresh : Nat → String) (rs : List FirewallRule)
    (hne : rs ≠ [])
    (hwf : ∀ r ∈ rs, r.id ≠ "" ∧ r.name ≠ "" ∧ r.action ≠ "" ∧
      r.createdAt.isSome = true ∧ r.updatedAt.isSome = true) :
    ∃ rules2,
      decodeRuleSet fresh (.wrapped (encodeRuleSet d rs).rules)
          = .imported rules2 rs.length
      ∧ rules2.length = rs.length
      ∧ rules2.map businessFields = rs.map businessFields := by
  have hrules : (encodeRuleSet d rs).rules = rs.map encodeRule := rfl
  have hfilter : (rs.map encodeRule).filter hasRequired = rs.map encodeRule := by
    rw [List.filter_eq_self]
    intro rec hmem
    obtain ⟨r, hr, rfl⟩ := List.mem_map.mp hmem
    obtain ⟨hid, hname, hact, -, -⟩ := hwf r hr
    simp [hasRequired, encodeRule, hid, hname, hact]
  have hlen : (rs.map encodeRule).length = rs.length := List.length_map rs encodeRule
  have hlenne : ¬((rs.map encodeRule).filter hasRequired).length = 0 := by
    rw [hfilter, hlen]
    intro h0
    exact hne (List.length_eq_zero.mp h0)
  refine ⟨((rs.map encodeRule).enum).map (fun q => decodeRecord (fresh q.1) q.2), ?_, ?_, ?_⟩
  · simp only [decodeRuleSet, hrules, hfilter, hlen]
    rw [if_neg (by rw [hfilter] at hlenne; rw [hlen] at hlenne; exact hlenne)]
  · simp [hlen]
  · rw [List.enum_eq_enumFrom, List.map_map]
    have hmain := decode_encode_business fresh 0 rs
      (fun r hr => ⟨(hwf r hr).2.2.2.1, (hwf r hr).2.2.2.2⟩)
    simpa [Function.comp] using hmain

/-- C3 witness: the round trip at a concrete one-rule collection. -/
theorem C3_roundtrip_amended_witness :
    ∃ rules2,
      decodeRuleSet (fun _ => "z") (.wrapped (encodeRuleSet "d" [ruleGood]).rules)
          = .imported rules2 [ruleGood].length
      ∧ rules2.length = [ruleGood].length
      ∧ rules2.map businessFields = [ruleGood].map businessFields :=
  C3_roundtrip_amended "d" (fun _ => "z") [ruleGood] (by decide) (by decide)

/-- C8 counterexample: `handleImport` never reports the total record count —
the success alert interpolates only the accepted count and the zero path is a
countless message — so the decode outcome of the claim's scenario document
(one well-formed record, one record missing `action`, total 2) is the very
same outcome as for a document holding the well-formed record alone
(total 1): an import of that one rule with accepted count 1.  No observable
of the decode determines the claimed `totalCount = 2`. -/
theorem C8_total_unreported_counterexample :
    decodeRuleSet (fun _ => "f8") (.wrapped [recGood, recNoAction])
        = .imported [decodeRecord "f8" recGood] 1
    ∧ decodeRuleSet (fun _ => "f8") (.wrapped [recGood, recNoAction])
        = decodeRuleSet (fun _ => "f8") (.wrapped [recGood]) := by
  exact ⟨by decide, by decide⟩

/-- C8 (amended): the decoder rejects a non-list payload as the format error;
given a list it never raises the format error but filters out each record
missing `id`, `name` or `action`; a nonzero accepted set is imported together
with the accepted count — the only count the source reports — while the
total record count is surfaced nowhere; the claim's scenario of one
well-formed record plus one record missing `action` yields accepted count 1;
and zero accepted records yield the distinct countless no-valid-rules
outcome, so "0 accepted" is distinguishable from a successful partial
import. -/
theorem C8_decode_filter_accepted :
    (∀ fresh : Nat → String, decodeRuleSet fresh .notList = .formatError)
    ∧ (∀ (fresh : Nat → String) (recs : List RawRecord),
        decodeRuleSet fresh (.bare recs) ≠ .formatError
        ∧ decodeRuleSet fresh (.wrapped recs) ≠ .formatError)
    ∧ (∀ (fresh : Nat → String) (recs : List RawRecord),
        recs.filter hasRequired ≠ [] →
          decodeRuleSet fresh (.bare recs)
            = .imported (((recs.filter hasRequired).enum).map
                (fun q => decodeRecord (fresh q.1) q.2))
              (recs.filter hasRequired).length)
    ∧ (∀ (fresh : Nat → String) (recs : List RawRecord),
        recs.filter hasRequired = [] →
          decodeRuleSet fresh (.bare recs) = .noValidRules)
    ∧ (∃ rl, decodeRuleSet (fun _ => "f") (.wrapped [recGood, recNoAction])
        = .imported rl 1)
    ∧ (∀ (rl : List FirewallRule) (a : Nat),
        ImportResult.noValidRules ≠ ImportResult.imported rl a) := by
  refine ⟨fun fresh => rfl, ?_, ?_, ?_, ⟨_, rfl⟩, ?_⟩
  · intro fresh recs
    constructor <;>
    · simp only [decodeRuleSet]
      split <;> simp
  · intro fresh recs hne
    simp only [decodeRuleSet]
    rw [if_neg (fun h0 => hne (List.length_eq_zero.mp h0))]
  · intro fresh recs h0
    simp only [decodeRuleSet]
    rw [if_pos (by rw [h0]; rfl)]
  · intro rl a h
    exact ImportResult.noConfusion h

/-- C9 counterexample: a record with all required fields but unparsable
timestamp text is neither dropped nor does the decode fail — it is accepted
(accepted count 1) with the Invalid-Date value in both timestamp fields. -/
theorem C9_invalid_date_counterexample :
    decodeRuleSet (fun _ => "f9") (.bare [recBadDates])
        = .imported [decodeRecord "f9" recBadDates] 1
    ∧ (decodeRecord "f9" recBadDates).createdAt = none
    ∧ (decodeRecord "f9" recBadDates).updatedAt = none := by
  exact ⟨by decide, by decide, by decide⟩

/-- C9 (amended): the decoder does not treat unparsable timestamp text as an
error: any record with `id`, `name` and `action` present is accepted even
when both timestamp texts are unparsable, and the decoded rule then carries
the Invalid-Date value (`none`) in `createdAt`/`updatedAt`; acceptance
depends only on the three required fields. -/
theorem C9_invalid_date_amended (fresh : Nat → String) (rec : RawRecord)
    (hreq : hasRequired rec = true)
    (hbad : parseDate rec.createdAt = none ∧ parseDate rec.updatedAt = none) :
    decodeRuleSet fresh (.bare [rec]) = .imported [decodeRecord (fresh 0) rec] 1
    ∧ (decodeRecord (fresh 0) rec).createdAt = none
    ∧ (decodeRecord (fresh 0) rec).updatedAt = none := by
  refine ⟨?_, by simp [decodeRecord, hbad.1], by simp [decodeRecord, hbad.2]⟩
  simp only [decodeRuleSet]
  rw [show ([rec].filter hasRequired) = [rec] from by simp [hreq]]
  rfl

/-- C9 witness: the amended behaviour at the concrete bad-timestamp record. -/
theorem C9_invalid_date_amended_witness :
    decodeRuleSet (fun _ => "f") (.bare [recBadDates])
        = .imported [decodeRecord ((fun _ : Nat => "f") 0) recBadDates] 1
    ∧ (decodeRecord ((fun _ : Nat => "f") 0) recBadDates).createdAt = none
    ∧ (decodeRecord ((fun _ : Nat => "f") 0) recBadDates).updatedAt = none :=
  C9_invalid_date_amended (fun _ => "f") recBadDates (by decide) ⟨by decide, by decide⟩

/-- C7: `validateRule` runs all five checks and collects every failure: the
error fields form a sublist of the fixed order name, sourceIp,
destinationIp, sourcePort, destinationPort (so there is at most one error
per field, in that order); each fixed-message error is present exactly when
its check fails; the result is empty exactly when every check passes; and a
form missing its name contributes exactly one error with field `name`. -/
theorem C7_validateRule_collects (form : RuleFormData) :
    ((validateRule form).map (fun e => e.field)).Sublist
        ["name", "sourceIp", "destinationIp", "sourcePort", "destinationPort"]
    ∧ ((⟨"name", "Rule name is required"⟩ : ValidationError) ∈ validateRule form
        ↔ trimS form.name = "")
    ∧ ((⟨"sourceIp", "Source IP is required"⟩ : ValidationError) ∈ validateRule form
        ↔ trimS form.sourceIp = "")
    ∧ ((⟨"sourceIp", "Invalid IP address format"⟩ : ValidationError) ∈ validateRule form
        ↔ (trimS form.sourceIp ≠ "" ∧ validateIP form.sourceIp = false))
    ∧ ((⟨"destinationIp", "Destination IP is required"⟩ : ValidationError) ∈ validateRule form
        ↔ trimS form.destinationIp = "")
    ∧ ((⟨"destinationIp", "Invalid IP address format"⟩ : ValidationError) ∈ validateRule form
        ↔ (trimS form.destinationIp ≠ "" ∧ validateIP form.destinationIp = false))
    ∧ ((⟨"sourcePort", "Invalid port format"⟩ : ValidationError) ∈ validateRule form
        ↔ (form.sourcePort ≠ "" ∧ validatePort form.sourcePort form.protocol = false))
    ∧ ((⟨"destinationPort", "Invalid port format"⟩ : ValidationError) ∈ validateRule form
        ↔ (form.destinationPort ≠ "" ∧
            validatePort form.destinationPort form.protocol = false))
    ∧ (validateRule form = [] ↔
        (trimS form.name ≠ "" ∧ trimS form.sourceIp ≠ "" ∧ validateIP form.sourceIp = true
          ∧ trimS form.destinationIp ≠ "" ∧ validateIP form.destinationIp = true
          ∧ (form.sourcePort = "" ∨ validatePort form.sourcePort form.protocol = true)
          ∧ (form.destinationPort = "" ∨
              validatePort form.destinationPort form.protocol = true)))
    ∧ (trimS form.name = "" →
        (validateRule form).countP (fun e => e.field == "name") = 1) := by
  refine ⟨?_, ?_⟩
  · simp only [validateRule]
    split_ifs <;> simp_all <;> decide
  · simp only [validateRule]
    split_ifs <;> simp_all <;> tauto
